import Mathlib

/-!
Verification development for the slideshow playback/transition engine
(React + Framer Motion slideshow app).  The definitions below are a
shallow embedding of the TypeScript source:

- `src/src/utils/slide.motion.ts`         (motion profile table)
- `src/src/components/slide-show.tsx`     (engine, two near-duplicate variants)
- `src/unnamed/part_002`                  (media utilities: nextIndex, keyOf)
- `src/unnamed/part_003`                  (App host: engineKey / bumpEngine)

JavaScript numbers used as array indices are embedded as `Int` (with the
truncating remainder `Int.tmod` for the JS `%` operator) or as `Nat` where
the source value is provably non-negative.  Timers and asynchronous
callbacks are embedded as explicit event/timing data.
-/

/-- Media kind, from the `type: "image" | "video"` union in the source. -/
inductive MediaType where
  | image
  | video
deriving DecidableEq, Repr

/-- MediaItem from `src/unnamed/part_002`: `{ type, src, muted? }`. -/
structure MediaItem where
  type : MediaType
  src : String
  muted : Option Bool := none
deriving DecidableEq, Repr

/-- TransitionMode from `setting-sheet.tsx`:
crossfade | slide | flip | zoom | pan. -/
inductive TransitionMode where
  | crossfade
  | slide
  | flip
  | zoom
  | pan
deriving DecidableEq, Repr

/-- One declarative visual state handed to framer-motion.  Each field is
optional because the source object literals mention different subsets of
properties per mode.  Numeric values are exact rationals. -/
structure MotionTarget where
  opacity : Option ℚ := none
  x : Option ℚ := none
  scale : Option ℚ := none
  rotateY : Option ℚ := none
  transformPerspective : Option ℚ := none
deriving DecidableEq, Repr

/-- The enter/settled/exit triple returned by the motion table
(`initial` / `animate` / `exit` in the source). -/
structure MotionTriplet where
  initial : MotionTarget
  animate : MotionTarget
  exit : MotionTarget
deriving DecidableEq, Repr

/-- getMotionTriplet from `src/src/utils/slide.motion.ts` (the identical
function also appears inline in the second engine variant). -/
def getMotionTriplet (mode : TransitionMode) (isImage : Bool)
    (kenBurns : Bool) : MotionTriplet :=
  if mode = .slide then
    { initial := { opacity := some 0, x := some 60 }
      animate := { opacity := some 1, x := some 0 }
      exit := { opacity := some 0, x := some (-60) } }
  else if mode = .flip then
    { initial := { opacity := some 0, rotateY := some (-70), x := some 40,
                   transformPerspective := some 1200 }
      animate := { opacity := some 1, rotateY := some 0, x := some 0,
                   transformPerspective := some 1200 }
      exit := { opacity := some 0, rotateY := some 70, x := some (-40),
                transformPerspective := some 1200 } }
  else if mode = .zoom then
    { initial := { opacity := some 0, scale := some (97/100) }
      animate := { opacity := some 1, scale := some 1 }
      exit := { opacity := some 0, scale := some (103/100) } }
  else if mode = .pan then
    { initial := { opacity := some 0, x := some 24 }
      animate := { opacity := some 1, x := some 0 }
      exit := { opacity := some 0, x := some (-24) } }
  else
    { initial := { opacity := some 0,
                   scale := some (if isImage && kenBurns then 103/100 else 1) }
      animate := { opacity := some 1, scale := some 1 }
      exit := { opacity := some 0,
                scale := some (if isImage && kenBurns then 101/100 else 1) } }

/-- Modelled from the spec: the required-mappings table of section 4.1,
read literally cell by cell (each cell lists exactly the visual parameters
present in that state; the flip row lists `perspective 1200` only in the
enter column). -/
def specTableTriplet (mode : TransitionMode) (isImage : Bool)
    (kenBurns : Bool) : MotionTriplet :=
  match mode with
  | .crossfade =>
    { initial := { opacity := some 0,
                   scale := some (if isImage && kenBurns then 103/100 else 1) }
      animate := { opacity := some 1, scale := some 1 }
      exit := { opacity := some 0,
                scale := some (if isImage && kenBurns then 101/100 else 1) } }
  | .slide =>
    { initial := { opacity := some 0, x := some 60 }
      animate := { opacity := some 1, x := some 0 }
      exit := { opacity := some 0, x := some (-60) } }
  | .flip =>
    { initial := { opacity := some 0, rotateY := some (-70), x := some 40,
                   transformPerspective := some 1200 }
      animate := { opacity := some 1, rotateY := some 0, x := some 0 }
      exit := { opacity := some 0, rotateY := some 70, x := some (-40) } }
  | .zoom =>
    { initial := { opacity := some 0, scale := some (97/100) }
      animate := { opacity := some 1, scale := some 1 }
      exit := { opacity := some 0, scale := some (103/100) } }
  | .pan =>
    { initial := { opacity := some 0, x := some 24 }
      animate := { opacity := some 1, x := some 0 }
      exit := { opacity := some 0, x := some (-24) } }

/-- Amended table: the spec table with flip settled/exit also carrying the
`transformPerspective 1200` parameter the source includes in all three
flip states. -/
def specTableTripletAmended (mode : TransitionMode) (isImage : Bool)
    (kenBurns : Bool) : MotionTriplet :=
  match mode with
  | .flip =>
    { initial := { opacity := some 0, rotateY := some (-70), x := some 40,
                   transformPerspective := some 1200 }
      animate := { opacity := some 1, rotateY := some 0, x := some 0,
                   transformPerspective := some 1200 }
      exit := { opacity := some 0, rotateY := some 70, x := some (-40),
                transformPerspective := some 1200 } }
  | m => specTableTriplet m isImage kenBurns

/-- nextIndex from `src/unnamed/part_002`:
`len <= 0 ? 0 : (i + 1) % len` (arguments are non-negative at every call
site, so it is embedded on `Nat`, where the JS `%` is `Nat.mod`). -/
def nextIndex (i : Nat) (len : Nat) : Nat :=
  if len = 0 then 0 else (i + 1) % len

/-- String form of a media kind, as interpolated by `keyOf`. -/
def MediaType.str : MediaType → String
  | .image => "image"
  | .video => "video"

/-- keyOf from `src/unnamed/part_002`: the template literal
`type:src` used as the stable identity of a media item. -/
def keyOf (item : MediaItem) : String :=
  item.type.str ++ ":" ++ item.src

/-- One step of the linear congruential generator used by the shuffle:
`s = (s * 9301 + 49297) % 233280`. -/
def lcgStep (s : Nat) : Nat :=
  (s * 9301 + 49297) % 233280

/-- Swap of two list positions, the embedding of the JS destructuring
swap `[arr[i], arr[j]] = [arr[j], arr[i]]` (both indices are in range at
every use; out-of-range indices leave the list unchanged). -/
def listSwap (l : List Nat) (i j : Nat) : List Nat :=
  match l[i]?, l[j]? with
  | some a, some b => (l.set i b).set j a
  | _, _ => l

/-- The Fisher-Yates loop `for (let i = arr.length - 1; i > 0; i--)` of
the `order` memo.  The fuel argument is the loop variable `i`; the float
expression `Math.floor((s / 233280) * (i + 1))` is embedded as the exact
integer division `s * (i + 1) / 233280` (for `0 <= s < 233280` and the
small `i + 1` in play both are computed exactly and land in `[0, i]`). -/
def fyLoop : List Nat → Nat → Nat → List Nat
  | arr, _, 0 => arr
  | arr, s, k + 1 =>
    let s' := lcgStep s
    let j := s' * (k + 2) / 233280
    fyLoop (listSwap arr (k + 1) j) s' k

/-- The `order` useMemo body from `slide-show.tsx` (identical in both
engine variants): identity permutation without shuffle, else a seeded
Fisher-Yates shuffle of `0..n-1`.  `items.map((_, i) => i)` is
`List.range n`; the JS seed normalisation `shuffleSeed || 1` is the
`if seed = 0` test (seeds are embedded as naturals; the host app always
passes 0). -/
def computeOrder (n : Nat) (shuffle : Bool) (seed : Nat) : List Nat :=
  let arr := List.range n
  if !shuffle then arr
  else fyLoop arr (if seed = 0 then 1 else seed) (n - 1)

/-- The props record of the Slideshow component (callbacks and fields the
claims do not touch are omitted; `intervalSec` is kept as an exact
rational). -/
structure Props where
  items : List MediaItem
  intervalSec : ℚ
  shuffle : Bool
  kenBurns : Bool
  playing : Bool
  shuffleSeed : Nat
  transitionMode : TransitionMode
deriving DecidableEq, Repr

/-- The `order` memo as a function of the props, depending (as the
dependency array `[items, shuffle, shuffleSeed]` records) only on the
media list, the shuffle flag and the seed. -/
def order (p : Props) : List Nat :=
  computeOrder p.items.length p.shuffle p.shuffleSeed

theorem listSwap_helper_perm (x : Nat) :
    ∀ (xs : List Nat) (k : Nat) (hk : k < xs.length),
      List.Perm (xs[k] :: xs.set k x) (x :: xs) := by
  intro xs
  induction xs with
  | nil => intro k hk; simp at hk
  | cons y ys ih =>
    intro k hk
    match k with
    | 0 => simpa using List.Perm.swap x y ys
    | m + 1 =>
      have hm : m < ys.length := by simpa using hk
      have step : List.Perm (ys[m] :: y :: ys.set m x) (y :: ys[m] :: ys.set m x) :=
        List.Perm.swap y (ys[m]) (ys.set m x)
      have tail : List.Perm (y :: ys[m] :: ys.set m x) (y :: x :: ys) :=
        List.Perm.cons y (ih m hm)
      have fin : List.Perm (y :: x :: ys) (x :: y :: ys) := List.Perm.swap x y ys
      simpa using (step.trans tail).trans fin

theorem set_set_perm :
    ∀ (l : List Nat) (i j : Nat) (hi : i < l.length) (hj : j < l.length),
      List.Perm ((l.set i l[j]).set j l[i]) l := by
  intro l
  induction l with
  | nil => intro i j hi hj; simp at hi
  | cons x xs ih =>
    intro i j hi hj
    match i, j with
    | 0, 0 => simp
    | 0, k + 1 =>
      have hk : k < xs.length := by simpa using hj
      have eq1 : ((x :: xs).set 0 (x :: xs)[k + 1]).set (k + 1) (x :: xs)[0]
          = xs[k] :: xs.set k x := by simp
      rw [eq1]
      exact listSwap_helper_perm x xs k hk
    | m + 1, 0 =>
      have hm : m < xs.length := by simpa using hi
      have eq1 : ((x :: xs).set (m + 1) (x :: xs)[0]).set 0 (x :: xs)[m + 1]
          = xs[m] :: xs.set m x := by simp
      rw [eq1]
      exact listSwap_helper_perm x xs m hm
    | m + 1, k + 1 =>
      have hm : m < xs.length := by simpa using hi
      have hk : k < xs.length := by simpa using hj
      have eq1 : ((x :: xs).set (m + 1) (x :: xs)[k + 1]).set (k + 1) (x :: xs)[m + 1]
          = x :: ((xs.set m xs[k]).set k xs[m]) := by simp
      rw [eq1]
      exact List.Perm.cons x (ih m k hm hk)

theorem listSwap_perm (l : List Nat) (i j : Nat) :
    List.Perm (listSwap l i j) l := by
  unfold listSwap
  cases hi : l[i]? with
  | none => cases l[j]? <;> exact List.Perm.refl l
  | some a =>
    cases hj : l[j]? with
    | none => exact List.Perm.refl l
    | some b =>
      obtain ⟨hi', rfl⟩ := List.getElem?_eq_some.mp hi
      obtain ⟨hj', rfl⟩ := List.getElem?_eq_some.mp hj
      exact set_set_perm l i j hi' hj'

theorem fyLoop_perm : ∀ (k : Nat) (arr : List Nat) (s : Nat),
    List.Perm (fyLoop arr s k) arr := by
  intro k
  induction k with
  | zero => intro arr s; exact List.Perm.refl arr
  | succ k ih =>
    intro arr s
    exact (ih _ _).trans (listSwap_perm arr (k + 1) _)

theorem computeOrder_perm (n : Nat) (shuffle : Bool) (seed : Nat) :
    List.Perm (computeOrder n shuffle seed) (List.range n) := by
  unfold computeOrder
  cases shuffle with
  | false => simp
  | true => simpa using fyLoop_perm (n - 1) (List.range n) _

theorem order_perm (p : Props) :
    List.Perm (order p) (List.range p.items.length) :=
  computeOrder_perm _ _ _

theorem order_length (p : Props) : (order p).length = p.items.length := by
  simpa using (order_perm p).length_eq

theorem order_mem_lt (p : Props) {v : Nat} (hv : v ∈ order p) :
    v < p.items.length := by
  have := (order_perm p).mem_iff.mp hv
  simpa using this

/-- The staged incoming item: `{ idx, item, key, ready }` from
`slide-show.tsx` (identical in both variants).  `idx` is a JS number,
embedded as `Int`; at every construction site it is the sign-corrected
wrap of an index and hence non-negative. -/
structure IncomingState where
  idx : Int
  item : MediaItem
  key : String
  ready : Bool
deriving DecidableEq, Repr

/-- The two useState cells of the engine: `idx` (shown position, a JS
number) and `incoming`. -/
structure EngineState where
  idx : Int
  incoming : Option IncomingState
deriving DecidableEq, Repr

/-- Initial engine state: `useState(0)` and `useState(null)`. -/
def initEngineState : EngineState := { idx := 0, incoming := none }

/-- JS remainder `%` on integers (truncated toward zero). -/
def jsMod (a b : Int) : Int := Int.tmod a b

/-- The sign-corrected wrap `((x % len) + len) % len` used for both
`shownIdx` and the staged index `ni` in `scheduleNext`. -/
def wrapIdx (x : Int) (len : Nat) : Int :=
  jsMod (jsMod x len + len) len

/-- safeLen is the length of the computed order. -/
def safeLen (p : Props) : Nat := (order p).length

/-- shownIdx: `safeLen ? ((idx % safeLen) + safeLen) % safeLen : 0`. -/
def shownIdxI (p : Props) (st : EngineState) : Int :=
  if safeLen p = 0 then 0 else wrapIdx st.idx (safeLen p)

/-- shownIdx as a natural number (it is provably non-negative). -/
def shownIdx (p : Props) (st : EngineState) : Nat :=
  (shownIdxI p st).toNat

/-- shownItem: `safeLen ? (items[order[shownIdx] ?? 0] ?? null) : null`. -/
def shownItem (p : Props) (st : EngineState) : Option MediaItem :=
  if safeLen p = 0 then none
  else p.items[((order p)[shownIdx p st]?).getD 0]?

/-- shownIsImage: `shownItem?.type === "image"`. -/
def shownIsImage (p : Props) (st : EngineState) : Bool :=
  match shownItem p st with
  | some it => it.type = MediaType.image
  | none => false

/-- shownIsVideo: `shownItem?.type === "video"`. -/
def shownIsVideo (p : Props) (st : EngineState) : Bool :=
  match shownItem p st with
  | some it => it.type = MediaType.video
  | none => false

/-- scheduleNext from `slide-show.tsx` (identical in both variants):
drop the request when the list is empty or an incoming is already
pending, otherwise stage the wrapped target position with a fresh,
not-yet-ready incoming record. -/
def scheduleNext (p : Props) (st : EngineState) (nextI : Int) : EngineState :=
  if safeLen p = 0 then st
  else if st.incoming.isSome then st
  else
    let ni := wrapIdx nextI (safeLen p)
    match p.items[((order p)[ni.toNat]?).getD 0]? with
    | none => st
    | some it =>
      { st with incoming := some { idx := ni, item := it, key := keyOf it, ready := false } }

/-- goNext: `scheduleNext(nextIndex(shownIdx, safeLen))`. -/
def goNext (p : Props) (st : EngineState) : EngineState :=
  if safeLen p = 0 then st
  else scheduleNext p st (nextIndex (shownIdx p st) (safeLen p))

/-- The functional updater of markReady (identical in both variants):
`setIncoming((p) => (p && !p.ready ? { ...p, ready: true } : p))`. -/
def markReady (st : EngineState) : EngineState :=
  { st with
    incoming :=
      match st.incoming with
      | some inc => if inc.ready then some inc else some { inc with ready := true }
      | none => none }

/-- The body of the 560ms commit timer (identical in both variants):
`setIdx(incoming.idx); setIncoming(null)`. -/
def commitStep (st : EngineState) : EngineState :=
  match st.incoming with
  | some inc => { idx := inc.idx, incoming := none }
  | none => st

/-- handleVideoEnded (identical in both variants): advance only while
playing and with no transition in flight. -/
def handleVideoEnded (p : Props) (st : EngineState) : EngineState :=
  if !p.playing then st
  else if st.incoming.isSome then st
  else goNext p st

/-- One firing of the image advance timer, composing the arming guards of
the effect (`!playing || !shownIsImage`, `!safeLen || safeLen <= 1`,
`incoming`) with the tick body guard `!incoming && now + 6 >= dueRef`
(the due-time comparison is the Boolean argument). -/
def tickFire (p : Props) (st : EngineState) (due : Bool) : EngineState :=
  if !p.playing || !(shownIsImage p st) then st
  else if safeLen p ≤ 1 then st
  else if st.incoming.isSome then st
  else if due then goNext p st else st

/-- whether the staged incoming exists and is marked ready
(`incoming?.ready` coerced to a Boolean). -/
def incomingReady (st : EngineState) : Bool :=
  match st.incoming with
  | some inc => inc.ready
  | none => false

theorem wrapIdx_ofNat_lt {v len : Nat} (h : v < len) :
    wrapIdx (v : Int) len = (v : Int) := by
  unfold wrapIdx jsMod
  have h1 : ((v : Int)).tmod (len : Int) = ((v % len : Nat) : Int) :=
    (Int.ofNat_tmod v len).symm
  rw [Nat.mod_eq_of_lt h] at h1
  rw [h1]
  rw [show ((v : Int) + (len : Nat)) = (((v + len : Nat)) : Int) by push_cast; ring]
  rw [← Int.ofNat_tmod, Nat.add_mod_right, Nat.mod_eq_of_lt h]

theorem wrapIdx_bounds {len : Nat} (hl : 0 < len) (x : Int) :
    0 ≤ wrapIdx x len ∧ wrapIdx x len < len := by
  have hlen : (0 : Int) < len := by exact_mod_cast hl
  have hlb : -(len : Int) < jsMod x len := by
    cases x with
    | ofNat m =>
      have h0 : (0 : Int) ≤ jsMod (Int.ofNat m) len := by
        unfold jsMod
        exact Int.tmod_nonneg _ (Int.natCast_nonneg m)
      omega
    | negSucc m =>
      unfold jsMod
      have heq : Int.tmod (Int.negSucc m) ((len : Nat) : Int)
          = -((((m + 1) % len : Nat)) : Int) := rfl
      rw [heq]
      have hmod : (m + 1) % len < len := Nat.mod_lt _ hl
      omega
  have hub : jsMod x len < len := Int.tmod_lt_of_pos x hlen
  have hnn : 0 ≤ jsMod x len + len := by omega
  unfold wrapIdx
  have hem : jsMod (jsMod x len + len) len = (jsMod x len + len) % (len : Int) := by
    unfold jsMod at *
    exact Int.tmod_eq_emod hnn (le_of_lt hlen)
  rw [hem]
  exact ⟨Int.emod_nonneg _ (by omega), Int.emod_lt_of_pos _ hlen⟩

theorem safeLen_eq (p : Props) : safeLen p = p.items.length := order_length p

theorem shownIdx_lt (p : Props) (st : EngineState) (h : 0 < safeLen p) :
    shownIdx p st < safeLen p := by
  unfold shownIdx shownIdxI
  rw [if_neg (Nat.pos_iff_ne_zero.mp h)]
  have hb := wrapIdx_bounds h st.idx
  omega

theorem scheduleNext_noop (p : Props) (st : EngineState) (n : Int)
    (h : st.incoming.isSome = true) : scheduleNext p st n = st := by
  simp [scheduleNext, h]

theorem goNext_noop (p : Props) (st : EngineState)
    (h : st.incoming.isSome = true) : goNext p st = st := by
  simp [goNext, scheduleNext_noop p st _ h]

theorem handleVideoEnded_noop (p : Props) (st : EngineState)
    (h : st.incoming.isSome = true) : handleVideoEnded p st = st := by
  simp [handleVideoEnded, h]

theorem tickFire_noop (p : Props) (st : EngineState) (due : Bool)
    (h : st.incoming.isSome = true) : tickFire p st due = st := by
  simp [tickFire, h]

/-- C1: with an incoming already staged, every further stage request —
manual scheduleNext, goNext, the video-ended handler, and a firing of the
image advance timer — leaves the engine state unchanged. -/
theorem stage_noop_when_incoming (p : Props) (st : EngineState) (n : Int)
    (due : Bool) (h : st.incoming.isSome = true) :
    scheduleNext p st n = st ∧ goNext p st = st ∧
    handleVideoEnded p st = st ∧ tickFire p st due = st :=
  ⟨scheduleNext_noop p st n h, goNext_noop p st h,
   handleVideoEnded_noop p st h, tickFire_noop p st due h⟩

/-- Sample media list used by the concrete witnesses. -/
def sampleItems : List MediaItem :=
  [{ type := .image, src := "a.jpg" },
   { type := .video, src := "b.mp4", muted := some true },
   { type := .image, src := "c.png" }]

/-- Sample props used by the concrete witnesses. -/
def sampleProps : Props :=
  { items := sampleItems, intervalSec := 3, shuffle := false, kenBurns := true,
    playing := true, shuffleSeed := 0, transitionMode := .crossfade }

/-- Engine state with a pending (not yet ready) incoming. -/
def samplePending : EngineState :=
  { idx := 0,
    incoming := some { idx := 1, item := { type := .video, src := "b.mp4", muted := some true },
                       key := "video:b.mp4", ready := false } }

/-- Engine state with a ready incoming. -/
def sampleReadyState : EngineState :=
  { idx := 0,
    incoming := some { idx := 1, item := { type := .video, src := "b.mp4", muted := some true },
                       key := "video:b.mp4", ready := true } }

theorem stage_noop_when_incoming_wit :
    samplePending.incoming.isSome = true ∧
    (scheduleNext sampleProps samplePending 5 = samplePending ∧
     goNext sampleProps samplePending = samplePending ∧
     handleVideoEnded sampleProps samplePending = samplePending ∧
     tickFire sampleProps samplePending true = samplePending) :=
  ⟨rfl, stage_noop_when_incoming sampleProps samplePending 5 true rfl⟩

theorem markReady_none (st : EngineState) (h : st.incoming = none) :
    markReady st = st := by
  obtain ⟨i, inc⟩ := st
  change inc = none at h
  subst h
  rfl

theorem markReady_of_ready (st : EngineState) (inc0 : IncomingState)
    (h : st.incoming = some inc0) (hr : inc0.ready = true) :
    markReady st = st := by
  obtain ⟨i, inc⟩ := st
  change inc = some inc0 at h
  subst h
  simp [markReady, hr]

theorem markReady_of_unready (st : EngineState) (inc0 : IncomingState)
    (h : st.incoming = some inc0) (hr : inc0.ready = false) :
    markReady st = { st with incoming := some { inc0 with ready := true } } := by
  obtain ⟨i, inc⟩ := st
  change inc = some inc0 at h
  subst h
  simp [markReady, hr]

theorem markReady_idem (st : EngineState) :
    markReady (markReady st) = markReady st := by
  obtain ⟨i, inc⟩ := st
  cases inc with
  | none => rfl
  | some a =>
    by_cases hr : a.ready
    · simp [markReady, hr]
    · simp [markReady, hr]

/-- C9: the markReady updater is monotone — it mutates the state only
when an incoming exists and is not yet ready, in which case the only
change is flipping that readiness flag to true; on a missing or
already-ready incoming it is the identity, and it is idempotent, so a
duplicate or late readiness signal leaves the engine unchanged. -/
theorem markReady_monotone (st : EngineState) :
    (st.incoming = none → markReady st = st) ∧
    (∀ inc, st.incoming = some inc → inc.ready = true → markReady st = st) ∧
    (∀ inc, st.incoming = some inc → inc.ready = false →
      markReady st = { st with incoming := some { inc with ready := true } }) ∧
    markReady (markReady st) = markReady st :=
  ⟨markReady_none st, fun inc h hr => markReady_of_ready st inc h hr,
   fun inc h hr => markReady_of_unready st inc h hr, markReady_idem st⟩

theorem markReady_monotone_wit :
    sampleReadyState.incoming = some
      { idx := 1, item := { type := .video, src := "b.mp4", muted := some true },
        key := "video:b.mp4", ready := true } ∧
    markReady sampleReadyState = sampleReadyState ∧
    markReady (markReady samplePending) = markReady samplePending :=
  ⟨rfl,
   (markReady_monotone sampleReadyState).2.1 _ rfl rfl,
   (markReady_monotone samplePending).2.2.2⟩

theorem nextIndex_iterate (L : Nat) (hL : 0 < L) (start : Nat)
    (hs : start < L) (k : Nat) :
    (fun i => nextIndex i L)^[k] start = (start + k) % L := by
  induction k with
  | zero => simp [Nat.mod_eq_of_lt hs]
  | succ k ih =>
    rw [Function.iterate_succ_apply', ih]
    show nextIndex ((start + k) % L) L = (start + (k + 1)) % L
    unfold nextIndex
    rw [if_neg (Nat.pos_iff_ne_zero.mp hL), Nat.mod_add_mod, ← Nat.add_assoc]

theorem goNext_stage (p : Props) (st : EngineState)
    (hne : p.items.length ≠ 0) (hinc : st.incoming = none) :
    ∃ it : MediaItem,
      (goNext p st).incoming =
        some { idx := (((shownIdx p st + 1) % p.items.length : Nat) : Int),
               item := it, key := keyOf it, ready := false } := by
  have hs : safeLen p = p.items.length := safeLen_eq p
  have hS : safeLen p ≠ 0 := by rw [hs]; exact hne
  have hgo : goNext p st
      = scheduleNext p st (nextIndex (shownIdx p st) (safeLen p)) := by
    unfold goNext; rw [if_neg hS]
  set v := nextIndex (shownIdx p st) (safeLen p) with hv
  have hvlt : v < safeLen p := by
    unfold nextIndex at hv
    rw [if_neg hS] at hv
    rw [hv]
    exact Nat.mod_lt _ (Nat.pos_of_ne_zero hS)
  have hwrap : wrapIdx (v : Int) (safeLen p) = (v : Int) := wrapIdx_ofNat_lt hvlt
  have hvlen : v < (order p).length := by
    rw [order_length p, ← hs]; exact hvlt
  have hget : (order p)[v]? = some ((order p)[v]) :=
    List.getElem?_eq_getElem hvlen
  have hmemlt : (order p)[v] < p.items.length :=
    order_mem_lt p (List.getElem_mem hvlen)
  have hitem : p.items[(order p)[v]]? = some (p.items[(order p)[v]]) :=
    List.getElem?_eq_getElem hmemlt
  refine ⟨p.items[(order p)[v]], ?_⟩
  rw [hgo]
  unfold scheduleNext
  rw [if_neg hS]
  rw [hinc]
  simp only [Option.isSome_none, Bool.false_eq_true, if_false]
  rw [hwrap]
  simp only [Int.toNat_ofNat]
  rw [hget]
  simp only [Option.getD_some]
  rw [hitem]
  have hveq : v = (shownIdx p st + 1) % p.items.length := by
    unfold nextIndex at hv
    rw [if_neg hS, hs] at hv
    exact hv
  simp [hveq]

/-- C4: with no transition in flight and a non-empty list, an advance
stages exactly the order position `(shownIdx + 1) mod L`, not yet ready;
the staged position depends only on the current position and the list
length (shuffle and seed never change the runtime selection rule); and
iterating the selection rule from any start visits
`start, start+1 mod L, ...` with monotonic wraparound and no skips. -/
theorem advance_stages_next_position (p : Props) (st : EngineState)
    (hne : p.items ≠ []) (hinc : st.incoming = none) :
    (∃ inc : IncomingState,
      (goNext p st).incoming = some inc ∧
      inc.idx = (((shownIdx p st + 1) % p.items.length : Nat) : Int) ∧
      inc.ready = false) ∧
    (∀ q : Props, q.items = p.items → ∀ inc' : IncomingState,
      (goNext q st).incoming = some inc' →
      inc'.idx = (((shownIdx p st + 1) % p.items.length : Nat) : Int)) ∧
    (∀ (start k : Nat), start < p.items.length →
      (fun i => nextIndex i p.items.length)^[k] start
        = (start + k) % p.items.length) := by
  have hlen : p.items.length ≠ 0 := by
    intro h; exact hne (List.length_eq_zero.mp h)
  refine ⟨?_, ?_, ?_⟩
  · obtain ⟨it, hit⟩ := goNext_stage p st hlen hinc
    exact ⟨_, hit, rfl, rfl⟩
  · intro q hq inc' hinc'
    have hql : q.items.length ≠ 0 := by rw [hq]; exact hlen
    obtain ⟨it, hit⟩ := goNext_stage q st hql hinc
    rw [hit] at hinc'
    have hsame : shownIdx q st = shownIdx p st := by
      unfold shownIdx shownIdxI
      rw [safeLen_eq, safeLen_eq, hq]
    obtain rfl := (Option.some_inj.mp hinc').symm
    simp [hsame, hq]
  · intro start k hstart
    exact nextIndex_iterate _ (Nat.pos_of_ne_zero hlen) _ hstart k

/-- Engine state with no transition in flight. -/
def sampleIdle : EngineState := { idx := 0, incoming := none }

theorem advance_stages_next_position_wit :
    sampleProps.items ≠ [] ∧ sampleIdle.incoming = none ∧
    ((∃ inc : IncomingState,
      (goNext sampleProps sampleIdle).incoming = some inc ∧
      inc.idx = (((shownIdx sampleProps sampleIdle + 1) %
        sampleProps.items.length : Nat) : Int) ∧
      inc.ready = false)) :=
  ⟨by decide, rfl,
   (advance_stages_next_position sampleProps sampleIdle (by decide) rfl).1⟩

/-- C5 counterexample: in flip mode the source carries
`transformPerspective 1200` in the settled and exit states as well,
while the spec table lists perspective only in the enter column, so the
returned triple is not exactly the table row. -/
theorem getMotionTriplet_flip_ne_specTable :
    getMotionTriplet .flip true true ≠ specTableTriplet .flip true true := by
  intro h
  have h2 := congrArg (fun t => t.animate.transformPerspective) h
  simp [getMotionTriplet, specTableTriplet] at h2

/-- C5 (amended): getMotionTriplet returns exactly the values of the
spec's required-mappings table, with flip's settled and exit states also
carrying `transformPerspective 1200`; and the kenBurns flag changes the
result only in crossfade mode on an image. -/
theorem getMotionTriplet_matches_table (mode : TransitionMode)
    (isImage kb kb' : Bool) :
    getMotionTriplet mode isImage kb = specTableTripletAmended mode isImage kb ∧
    ((mode = .crossfade ∧ isImage = true) ∨
      getMotionTriplet mode isImage kb = getMotionTriplet mode isImage kb') := by
  cases mode <;> cases isImage <;> cases kb <;> cases kb' <;>
    first
      | exact ⟨rfl, Or.inl ⟨rfl, rfl⟩⟩
      | exact ⟨rfl, Or.inr rfl⟩

/-- C6: the computed order is a permutation of `0..N-1`, of length `N`,
the identity permutation when shuffle is off, and a deterministic
function of the media list, shuffle flag and seed alone, so re-rendering
with only `playing` or `transitionMode` changed yields the same order. -/
theorem order_permutation_det (p : Props) :
    List.Perm (order p) (List.range p.items.length) ∧
    (order p).length = p.items.length ∧
    (p.shuffle = false → order p = List.range p.items.length) ∧
    (∀ q : Props, p.items = q.items → p.shuffle = q.shuffle →
      p.shuffleSeed = q.shuffleSeed → order p = order q) := by
  refine ⟨order_perm p, order_length p, ?_, ?_⟩
  · intro h; simp [order, computeOrder, h]
  · intro q h1 h2 h3
    unfold order
    rw [h1, h2, h3]

/-- A props record differing from sampleProps only in fields outside the
order dependency array. -/
def samplePropsAlt : Props :=
  { sampleProps with
    playing := false
    transitionMode := .flip
    kenBurns := false
    intervalSec := 5 }

theorem order_permutation_det_wit :
    List.Perm (order sampleProps) (List.range 3) ∧
    order sampleProps = List.range 3 ∧
    order sampleProps = order samplePropsAlt :=
  ⟨(order_permutation_det sampleProps).1,
   (order_permutation_det sampleProps).2.2.1 rfl,
   (order_permutation_det sampleProps).2.2.2 samplePropsAlt rfl rfl rfl⟩

/-- C10: with shuffle enabled, seed 0 is replaced by 1 by the
`shuffleSeed || 1` normalisation before the permutation is generated, so
seed 0 and seed 1 always produce the identical playback order. -/
theorem shuffle_seed_zero_eq_seed_one (items : List MediaItem) (iv : ℚ)
    (kb pl : Bool) (tm : TransitionMode) :
    order { items := items, intervalSec := iv, shuffle := true, kenBurns := kb,
            playing := pl, shuffleSeed := 0, transitionMode := tm } =
    order { items := items, intervalSec := iv, shuffle := true, kenBurns := kb,
            playing := pl, shuffleSeed := 1, transitionMode := tm } ∧
    (∀ n : Nat, computeOrder n true 0 = computeOrder n true 1) := by
  constructor
  · simp [order, computeOrder]
  · intro n; simp [computeOrder]

/-- Kind-specific probe timeout of the first (canonical) engine variant:
`incoming.item.type === "video" ? 4500 : 2000`. -/
def probeTimeoutMs : MediaType → Nat
  | .video => 4500
  | .image => 2000

/-- Kind-specific probe timeout of the second engine variant:
`incoming.item.type === "video" ? 4000 : 2000`. -/
def probeTimeoutMsV2 : MediaType → Nat
  | .video => 4000
  | .image => 2000

/-- The bound passed to `waitFirstVideoFrame(el, 350)` in the first
variant (the 350ms first-frame grace). -/
def firstFrameGraceMs : Nat := 350

/-- Environment of one readiness probe run: the times (milliseconds from
probe start) at which the browser would deliver each callback, `none`
when a callback never fires (a failed or stalled asset).  Quantifying
over all environments covers success, decode/load failure, thrown
exceptions and a missing video element. -/
structure ProbeEnv where
  imgLoadAt : Option Nat
  imgErrAt : Option Nat
  rafDelay : Nat
  vidElAttached : Bool
  vidReadyEvtAt : Option Nat
  playDur : Nat
  frameCbAt : Option Nat
  vidThrowAt : Option Nat
deriving DecidableEq, Repr

/-- Race of a timer deadline against an optional event: whichever fires
first resolves the wait. -/
def optMin (deadline : Nat) : Option Nat → Nat
  | some t => min deadline t
  | none => deadline

/-- Time at which markReady first runs for an image probe (both
variants): the 2000ms fallback timer races `img.onload` followed by two
animation-frame ticks and `img.onerror`; markReady is monotone so the
earliest caller decides (the second variant clears the fallback inside
markReady, which does not change this time). -/
def imageReadyAt (env : ProbeEnv) : Nat :=
  optMin (optMin (probeTimeoutMs .image) (env.imgLoadAt.map (· + env.rafDelay)))
    env.imgErrAt

/-- Completion time of the first variant's async video path:
`waitVideoReady` resolves at its own `timeoutMs` deadline or at the first
loadeddata/canplay/error signal; then the play call takes `playDur`; then
`waitFirstVideoFrame` resolves at the frame callback or its 350ms bound.
A thrown exception short-circuits to markReady in the catch arm. -/
def videoPathDoneAt (env : ProbeEnv) : Nat :=
  match env.vidThrowAt with
  | some t => t
  | none =>
    optMin (probeTimeoutMs .video) env.vidReadyEvtAt + env.playDur
      + optMin firstFrameGraceMs env.frameCbAt

/-- Time at which markReady first runs for a video probe in the first
variant: the 4500ms fallback (cleared only in the `finally`, i.e. after
the async path itself called markReady) races the async path; when the
incoming video element is missing the effect returns early and only the
fallback remains. -/
def videoReadyAt (env : ProbeEnv) : Nat :=
  if env.vidElAttached then min (probeTimeoutMs .video) (videoPathDoneAt env)
  else probeTimeoutMs .video

/-- Completion of the second variant's `prepareVideo`: the canplay/error
wait has no timeout of its own (`none` when the event never fires), then
play and `waitForVideoFrame` (internally bounded by its 4000ms timer);
exceptions short-circuit to the catch arm. -/
def videoPathDoneAtV2 (env : ProbeEnv) : Option Nat :=
  match env.vidThrowAt with
  | some t => some t
  | none =>
    match env.vidReadyEvtAt with
    | none => none
    | some e => some (e + env.playDur + optMin 4000 env.frameCbAt)

/-- Time at which markReady first runs for a video probe in the second
variant: the 4000ms fallback races `prepareVideo`. -/
def videoReadyAtV2 (env : ProbeEnv) : Nat :=
  if env.vidElAttached then optMin (probeTimeoutMsV2 .video) (videoPathDoneAtV2 env)
  else probeTimeoutMsV2 .video

/-- Readiness time of the first variant's probe for a given media kind. -/
def probeReadyAt (t : MediaType) (env : ProbeEnv) : Nat :=
  match t with
  | .image => imageReadyAt env
  | .video => videoReadyAt env

/-- Readiness time of the second variant's probe for a given media kind. -/
def probeReadyAtV2 (t : MediaType) (env : ProbeEnv) : Nat :=
  match t with
  | .image => imageReadyAt env
  | .video => videoReadyAtV2 env

theorem optMin_le_deadline (d : Nat) (o : Option Nat) : optMin d o ≤ d := by
  cases o with
  | none => exact Nat.le_refl d
  | some t => exact Nat.min_le_left d t

/-- C2: in every environment — including decode/load failure, exceptions
and a never-firing callback — the probe marks the staged item ready at a
well-defined time (fail-open), and that time is within the kind-specific
bound: at most 2000ms for images and at most 4500ms plus the 350ms
first-frame grace for videos, in both engine variants. -/
theorem readiness_fail_open_bounded (it : MediaItem) (env : ProbeEnv) :
    (it.type = .image →
      probeReadyAt it.type env ≤ 2000 ∧ probeReadyAtV2 it.type env ≤ 2000) ∧
    (it.type = .video →
      probeReadyAt it.type env ≤ 4500 + firstFrameGraceMs ∧
      probeReadyAtV2 it.type env ≤ 4500 + firstFrameGraceMs) ∧
    probeTimeoutMs .image = 2000 ∧ probeTimeoutMs .video = 4500 := by
  refine ⟨?_, ?_, rfl, rfl⟩
  · intro h
    rw [h]
    have hb : imageReadyAt env ≤ 2000 :=
      le_trans (optMin_le_deadline _ _) (optMin_le_deadline _ _)
    exact ⟨hb, hb⟩
  · intro h
    rw [h]
    constructor
    · show videoReadyAt env ≤ 4500 + firstFrameGraceMs
      unfold videoReadyAt
      split
      · exact le_trans (Nat.min_le_left _ _) (by norm_num [probeTimeoutMs, firstFrameGraceMs])
      · norm_num [probeTimeoutMs, firstFrameGraceMs]
    · show videoReadyAtV2 env ≤ 4500 + firstFrameGraceMs
      unfold videoReadyAtV2
      split
      · exact le_trans (optMin_le_deadline _ _)
          (by norm_num [probeTimeoutMsV2, firstFrameGraceMs])
      · norm_num [probeTimeoutMsV2, firstFrameGraceMs]

/-- Probe environment of a completely broken asset: no callback ever
fires and no exception is thrown. -/
def deadAssetEnv : ProbeEnv :=
  { imgLoadAt := none, imgErrAt := none, rafDelay := 0,
    vidElAttached := true, vidReadyEvtAt := none, playDur := 0,
    frameCbAt := none, vidThrowAt := none }

theorem readiness_fail_open_bounded_wit :
    (MediaItem.type { type := .image, src := "broken.jpg" } = .image) ∧
    probeReadyAt .image deadAssetEnv ≤ 2000 ∧
    probeReadyAtV2 .image deadAssetEnv ≤ 2000 ∧
    probeReadyAt .video deadAssetEnv ≤ 4500 + firstFrameGraceMs :=
  ⟨rfl,
   ((readiness_fail_open_bounded { type := .image, src := "broken.jpg" }
      deadAssetEnv).1 rfl).1,
   ((readiness_fail_open_bounded { type := .image, src := "broken.jpg" }
      deadAssetEnv).1 rfl).2,
   ((readiness_fail_open_bounded { type := .video, src := "broken.mp4" }
      deadAssetEnv).2.1 rfl).1⟩

/-- The App host state from `src/unnamed/part_003`:
items, playing, intervalSec, transitionMode, settingsOpen, engineKey. -/
structure AppState where
  items : List MediaItem
  playing : Bool
  intervalSec : ℚ
  transitionMode : TransitionMode
  settingsOpen : Bool
  engineKey : Nat
deriving DecidableEq, Repr

/-- Initial App state (`useState([])`, `useState(true)`, `useState(3)`,
`useState("crossfade")`, `useState(false)`, `useState(0)`). -/
def initAppState : AppState :=
  { items := [], playing := true, intervalSec := 3,
    transitionMode := .crossfade, settingsOpen := false, engineKey := 0 }

/-- bumpEngine: `setEngineKey((k) => k + 1)`. -/
def bumpEngine (a : AppState) : AppState :=
  { a with engineKey := a.engineKey + 1 }

/-- The media-load continuation of the mount effect:
`setItems(list); bumpEngine()`. -/
def onMediaLoaded (a : AppState) (list : List MediaItem) : AppState :=
  bumpEngine { a with items := list }

/-- The interval-edit handler passed to the settings sheet:
`setIntervalSec(v); bumpEngine()`. -/
def onIntervalEdit (a : AppState) (v : ℚ) : AppState :=
  bumpEngine { a with intervalSec := v }

/-- React keyed-remount semantics for `<Slideshow key={engineKey} />`:
when the key prop changes the component instance is discarded and
recreated, so its useState cells are re-initialised to `idx = 0`,
`incoming = null`; with an unchanged key the prior engine state is
retained. -/
def engineStateAfterRender (oldKey newKey : Nat)
    (prior : EngineState) : EngineState :=
  if newKey = oldKey then prior else initEngineState

/-- C7: replacing the media list (the load continuation) bumps the
engine key, so the keyed remount resets the engine to shown position 0
with no incoming, regardless of the prior engine state; the
interval-edit reload path resets through the same mechanism. -/
theorem media_list_change_resets_engine (a : AppState)
    (list : List MediaItem) (v : ℚ) (prior : EngineState) :
    engineStateAfterRender a.engineKey (onMediaLoaded a list).engineKey prior
      = initEngineState ∧
    engineStateAfterRender a.engineKey (onIntervalEdit a v).engineKey prior
      = initEngineState ∧
    (onMediaLoaded a list).items = list ∧
    initEngineState.idx = 0 ∧ initEngineState.incoming = none := by
  refine ⟨?_, ?_, rfl, rfl, rfl⟩ <;>
    simp [engineStateAfterRender, onMediaLoaded, onIntervalEdit, bumpEngine]

/-- Commands the engine can issue to a video playback surface. -/
inductive VideoCmd where
  | play
  | pause
deriving DecidableEq, Repr

/-- The commit hold: `setTimeout(() => { setIdx(...); setIncoming(null) }, 560)`. -/
def commitHoldMs : Nat := 560

/-- The first variant's commit effect, split into its synchronous action
and the timer it arms: on a ready incoming it immediately pauses the
shown video when one is on screen (`shownIsVideo && activeVideoRef.current`)
and schedules the commit after the 560ms hold; with no ready incoming it
does nothing. -/
def commitEffect (p : Props) (st : EngineState) (elAttached : Bool) :
    Option VideoCmd × Option Nat :=
  if incomingReady st = false then (none, none)
  else ((if shownIsVideo p st && elAttached then some .pause else none),
        some commitHoldMs)

/-- The first variant's active-video play/pause effect: with a missing
element or a non-video shown item it does nothing; otherwise it pauses
when not playing or when the incoming is ready, and only in the
remaining case issues a (deferred) play. -/
def activeVideoCmd (p : Props) (st : EngineState) (elAttached : Bool) :
    Option VideoCmd :=
  if !elAttached || !(shownIsVideo p st) then none
  else if !p.playing || incomingReady st then some .pause
  else some .play

/-- C8: when the staged incoming is ready and the shown item is a video,
the commit effect pauses the shown video in its synchronous part — the
commit itself being deferred by the 560ms hold timer it arms — and while
the readiness flag is true the active-video effect never issues a play
command. -/
theorem ready_pauses_shown_video (p : Props) (st : EngineState)
    (hr : incomingReady st = true) (hv : shownIsVideo p st = true) :
    (commitEffect p st true).1 = some .pause ∧
    (commitEffect p st true).2 = some 560 ∧
    (∀ b : Bool, activeVideoCmd p st b ≠ some .play) := by
  refine ⟨?_, ?_, ?_⟩
  · simp [commitEffect, hr, hv]
  · simp [commitEffect, hr, commitHoldMs]
  · intro b
    cases b <;> simp [activeVideoCmd, hr, hv]

/-- Engine state showing the video at order position 1 with a ready
incoming staged. -/
def sampleVideoShown : EngineState :=
  { idx := 1,
    incoming := some { idx := 2, item := { type := .image, src := "c.png" },
                       key := "image:c.png", ready := true } }

theorem ready_pauses_shown_video_wit :
    incomingReady sampleVideoShown = true ∧
    shownIsVideo sampleProps sampleVideoShown = true ∧
    ((commitEffect sampleProps sampleVideoShown true).1 = some .pause ∧
     (commitEffect sampleProps sampleVideoShown true).2 = some 560 ∧
     (∀ b : Bool, activeVideoCmd sampleProps sampleVideoShown b ≠ some .play)) :=
  ⟨rfl, by decide,
   ready_pauses_shown_video sampleProps sampleVideoShown rfl (by decide)⟩

/-- External stimuli the engine reacts to, each processed at a given
absolute time. -/
inductive EngineEvent where
  | advanceTick (due : Bool)
  | videoEnded
  | manualAdvance (n : Int)
  | readySignal
  | commitFire
deriving DecidableEq, Repr

/-- Dependency tuple of the commit effect:
`[incoming?.ready, incoming?.idx, shownIsVideo]`. -/
def commitDeps (p : Props) (st : EngineState) :
    Option Bool × Option Int × Bool :=
  (st.incoming.map (fun i => i.ready),
   st.incoming.map (fun i => i.idx),
   shownIsVideo p st)

/-- Engine state together with the armed commit timer (absolute firing
time), reflecting the `setTimeout(..., 560)` owned by the commit
effect. -/
structure TimedConfig where
  st : EngineState
  commitAt : Option Nat
deriving DecidableEq, Repr

/-- Initial configuration: fresh engine state, no timer armed. -/
def initTimedConfig : TimedConfig :=
  { st := initEngineState, commitAt := none }

/-- Reconciliation of the commit effect after a state update at time
`t`: while its dependency tuple is unchanged the armed timer persists;
on a change the cleanup clears the old timer and the effect re-runs,
arming `t + 560` exactly when `incoming?.ready` holds
(`if (!incoming?.ready) return`). -/
def rearmCommit (p : Props) (t : Nat) (c : TimedConfig)
    (st' : EngineState) : TimedConfig :=
  if commitDeps p st' = commitDeps p c.st then
    { st := st', commitAt := c.commitAt }
  else
    { st := st',
      commitAt := if incomingReady st' then some (t + commitHoldMs) else none }

/-- One reaction of the engine at time `t`: stage requests run their
handlers, a readiness signal runs markReady, and the commit timer fires
only at the exact time for which it is armed, running the commit body. -/
def stepAt (p : Props) (t : Nat) (c : TimedConfig) :
    EngineEvent → TimedConfig
  | .advanceTick due => rearmCommit p t c (tickFire p c.st due)
  | .videoEnded => rearmCommit p t c (handleVideoEnded p c.st)
  | .manualAdvance n => rearmCommit p t c (scheduleNext p c.st n)
  | .readySignal => rearmCommit p t c (markReady c.st)
  | .commitFire =>
    if c.commitAt = some t then rearmCommit p t c (commitStep c.st) else c

/-- Folding a timed event trace from a configuration. -/
def runTrace (p : Props) (c : TimedConfig) :
    List (Nat × EngineEvent) → TimedConfig
  | [] => c
  | (t, e) :: rest => runTrace p (stepAt p t c e) rest

theorem incomingReady_eq_some (st : EngineState)
    (h : incomingReady st = true) :
    ∃ inc, st.incoming = some inc ∧ inc.ready = true := by
  unfold incomingReady at h
  cases hi : st.incoming with
  | none => rw [hi] at h; exact absurd h (by simp)
  | some inc => rw [hi] at h; exact ⟨inc, rfl, h⟩

theorem incomingReady_of_deps (p : Props) (st st' : EngineState)
    (h : commitDeps p st' = commitDeps p st) :
    incomingReady st' = incomingReady st := by
  have h1 : st'.incoming.map (fun i => i.ready)
      = st.incoming.map (fun i => i.ready) := congrArg Prod.fst h
  unfold incomingReady
  cases hi : st.incoming with
  | none =>
    rw [hi] at h1
    cases hi' : st'.incoming with
    | none => rfl
    | some i' => rw [hi'] at h1; exact absurd h1 (by simp)
  | some i =>
    rw [hi] at h1
    cases hi' : st'.incoming with
    | none => rw [hi'] at h1; exact absurd h1 (by simp)
    | some i' =>
      rw [hi'] at h1
      simpa using h1

/-- Invariant of the machine: the commit timer is armed exactly when a
ready incoming is pending. -/
def ArmedIffReady (c : TimedConfig) : Prop :=
  c.commitAt.isSome = incomingReady c.st

theorem rearmCommit_inv (p : Props) (t : Nat) (c : TimedConfig)
    (st' : EngineState) (h : ArmedIffReady c) :
    ArmedIffReady (rearmCommit p t c st') := by
  unfold ArmedIffReady at *
  unfold rearmCommit
  by_cases hd : commitDeps p st' = commitDeps p c.st
  · rw [if_pos hd]
    show c.commitAt.isSome = incomingReady st'
    rw [incomingReady_of_deps p c.st st' hd]
    exact h
  · rw [if_neg hd]
    show (if incomingReady st' then some (t + commitHoldMs) else none).isSome
        = incomingReady st'
    cases hr : incomingReady st' <;> simp

theorem stepAt_inv (p : Props) (t : Nat) (c : TimedConfig)
    (e : EngineEvent) (h : ArmedIffReady c) :
    ArmedIffReady (stepAt p t c e) := by
  cases e with
  | advanceTick due => exact rearmCommit_inv p t c _ h
  | videoEnded => exact rearmCommit_inv p t c _ h
  | manualAdvance n => exact rearmCommit_inv p t c _ h
  | readySignal => exact rearmCommit_inv p t c _ h
  | commitFire =>
    unfold stepAt
    by_cases hc : c.commitAt = some t
    · rw [if_pos hc]; exact rearmCommit_inv p t c _ h
    · rw [if_neg hc]; exact h

theorem runTrace_inv (p : Props) (c : TimedConfig)
    (tr : List (Nat × EngineEvent)) (h : ArmedIffReady c) :
    ArmedIffReady (runTrace p c tr) := by
  induction tr generalizing c with
  | nil => exact h
  | cons te rest ih => exact ih _ (stepAt_inv p te.1 c te.2 h)

theorem ready_arms_commit (p : Props) (t : Nat) (c : TimedConfig)
    (inc : IncomingState) (h : c.st.incoming = some inc)
    (hr : inc.ready = false) :
    stepAt p t c .readySignal =
      { st := { c.st with incoming := some { inc with ready := true } },
        commitAt := some (t + commitHoldMs) } := by
  show rearmCommit p t c (markReady c.st) = _
  rw [markReady_of_unready c.st inc h hr]
  unfold rearmCommit
  have hd : commitDeps p { c.st with incoming := some { inc with ready := true } }
      ≠ commitDeps p c.st := by
    unfold commitDeps
    simp [h, hr]
  rw [if_neg hd]
  simp [incomingReady]

theorem commitFire_commits (p : Props) (t : Nat) (c : TimedConfig)
    (inc : IncomingState) (hc : c.commitAt = some t)
    (h : c.st.incoming = some inc) :
    stepAt p t c .commitFire =
      { st := { idx := inc.idx, incoming := none }, commitAt := none } := by
  show (if c.commitAt = some t then rearmCommit p t c (commitStep c.st) else c) = _
  rw [if_pos hc]
  have hcs : commitStep c.st = { idx := inc.idx, incoming := none } := by
    unfold commitStep
    rw [h]
  rw [hcs]
  unfold rearmCommit
  have hd : commitDeps p ({ idx := inc.idx, incoming := none } : EngineState)
      ≠ commitDeps p c.st := by
    unfold commitDeps
    simp [h]
  rw [if_neg hd]
  simp [incomingReady]

theorem commitFire_stale (p : Props) (t : Nat) (c : TimedConfig)
    (hc : ¬ c.commitAt = some t) : stepAt p t c .commitFire = c := by
  show (if c.commitAt = some t then rearmCommit p t c (commitStep c.st) else c) = c
  rw [if_neg hc]

theorem rearmCommit_self (p : Props) (t : Nat) (c : TimedConfig) :
    rearmCommit p t c c.st = c := by
  unfold rearmCommit
  rw [if_pos rfl]

theorem ready_event_frozen (p : Props) (t : Nat) (c : TimedConfig)
    (e : EngineEvent) (hr : incomingReady c.st = true)
    (he : e ≠ .commitFire) : stepAt p t c e = c := by
  obtain ⟨inc, hi, hir⟩ := incomingReady_eq_some c.st hr
  have hsome : c.st.incoming.isSome = true := by rw [hi]; rfl
  cases e with
  | advanceTick due =>
    show rearmCommit p t c (tickFire p c.st due) = c
    rw [tickFire_noop p c.st due hsome]
    exact rearmCommit_self p t c
  | videoEnded =>
    show rearmCommit p t c (handleVideoEnded p c.st) = c
    rw [handleVideoEnded_noop p c.st hsome]
    exact rearmCommit_self p t c
  | manualAdvance n =>
    show rearmCommit p t c (scheduleNext p c.st n) = c
    rw [scheduleNext_noop p c.st n hsome]
    exact rearmCommit_self p t c
  | readySignal =>
    show rearmCommit p t c (markReady c.st) = c
    rw [markReady_of_ready c.st inc hi hir]
    exact rearmCommit_self p t c
  | commitFire => exact absurd rfl he

/-- C3: in the timed commit protocol, (i) the hold is 560ms; (ii) the
readiness signal on an unready incoming flips it ready and arms the
commit timer for exactly 560ms later; (iii) the timer firing at its
armed time commits: shownPosition becomes incoming.position and incoming
becomes None, with the timer cleared; (iv) at any other time the fire is
a no-op; (v) while a ready incoming is pending every non-fire event
leaves the configuration untouched, so the state the timer commits is
the one staged at readiness; and (vi) along every trace from the initial
configuration the timer is armed exactly when a ready incoming is
pending — hence each staged incoming that becomes ready gets exactly one
commit, 560ms after readiness. -/
theorem commit_exactly_once_after_hold :
    commitHoldMs = 560 ∧
    (∀ (p : Props) (t : Nat) (c : TimedConfig) (inc : IncomingState),
      c.st.incoming = some inc → inc.ready = false →
      stepAt p t c .readySignal =
        { st := { c.st with incoming := some { inc with ready := true } },
          commitAt := some (t + 560) }) ∧
    (∀ (p : Props) (t : Nat) (c : TimedConfig) (inc : IncomingState),
      c.commitAt = some t → c.st.incoming = some inc →
      stepAt p t c .commitFire =
        { st := { idx := inc.idx, incoming := none }, commitAt := none }) ∧
    (∀ (p : Props) (t : Nat) (c : TimedConfig),
      ¬ c.commitAt = some t → stepAt p t c .commitFire = c) ∧
    (∀ (p : Props) (t : Nat) (c : TimedConfig) (e : EngineEvent),
      incomingReady c.st = true → e ≠ .commitFire → stepAt p t c e = c) ∧
    (∀ (p : Props) (tr : List (Nat × EngineEvent)),
      (runTrace p initTimedConfig tr).commitAt.isSome
        = incomingReady (runTrace p initTimedConfig tr).st) :=
  ⟨rfl,
   fun p t c inc h hr => ready_arms_commit p t c inc h hr,
   fun p t c inc hc h => commitFire_commits p t c inc hc h,
   fun p t c hc => commitFire_stale p t c hc,
   fun p t c e hr he => ready_event_frozen p t c e hr he,
   fun p tr => runTrace_inv p initTimedConfig tr rfl⟩

/-- Pending configuration: unready incoming staged, no timer armed. -/
def cfgPending : TimedConfig := { st := samplePending, commitAt := none }

/-- Ready configuration: ready incoming, timer armed for t = 1560. -/
def cfgReady : TimedConfig := { st := sampleReadyState, commitAt := some 1560 }

theorem commit_exactly_once_after_hold_wit :
    cfgPending.st.incoming.isSome = true ∧
    stepAt sampleProps 1000 cfgPending .readySignal =
      { st := sampleReadyState, commitAt := some 1560 } ∧
    stepAt sampleProps 1560 cfgReady .commitFire =
      { st := { idx := 1, incoming := none }, commitAt := none } ∧
    stepAt sampleProps 100 cfgReady .commitFire = cfgReady ∧
    stepAt sampleProps 1200 cfgReady .videoEnded = cfgReady :=
  ⟨rfl,
   commit_exactly_once_after_hold.2.1 sampleProps 1000 cfgPending _ rfl rfl,
   commit_exactly_once_after_hold.2.2.1 sampleProps 1560 cfgReady _ rfl rfl,
   commit_exactly_once_after_hold.2.2.2.1 sampleProps 100 cfgReady (by decide),
   commit_exactly_once_after_hold.2.2.2.2.1 sampleProps 1200 cfgReady
     .videoEnded rfl (by decide)⟩
